import Mathlib

/-!
Verification development for the `sweep_reconstruction` respiration-estimation
pipeline (`src/sweeprecon/EstimateRespiration.py`).

Modelling conventions:
* a numpy 3-D array is a `Vol`: a shape triple together with an index function
  (axes 0, 1, 2 as in `ImageData.img`; `_process_slices_parallel` iterates over
  axis 2, `vols[0].shape[2]`);
* image samples are exact rationals (`ℚ`), modelling IEEE floats by exact
  arithmetic;
* external library numerics (scipy median filter and Gaussian blur, the FFT
  magnitude, skimage denoising / edge map / active contour, numpy std, the
  sklearn Gaussian-process posterior mean) are not code of this repository;
  they are modelled as unknown function parameters gathered in the `Numerics`
  structure, and every theorem quantifies over them;
* the worker pool of `_process_slices_parallel` is modelled by an explicit
  completion order: the scheduler hands back the tagged task results in an
  arbitrary permutation of the slice indices, and `starmap_async(...).get()`
  reassembles them by input position.
-/

namespace SweepRecon

/-- A 2-D array (one slice of a volume): a shape pair plus an index function. -/
structure Mat (α : Type) where
  m0 : ℕ
  m1 : ℕ
  data : ℕ → ℕ → α

/-- A 3-D array, as held by `ImageData.img`. -/
structure Vol (α : Type) where
  n0 : ℕ
  n1 : ℕ
  n2 : ℕ
  data : ℕ → ℕ → ℕ → α

/-- Junk 2-D array used as the default of lookups that are proved to succeed. -/
def junkMat {α : Type} [Inhabited α] : Mat α := ⟨0, 0, fun _ _ => default⟩

/-- The aligned tuple of 2-D slices at slice index `zz`:
`[vols[v][:, :, zz] for v in range(0, vols.__len__())]`. -/
def slice_tuple {α : Type} (vols : List (Vol α)) (zz : ℕ) : List (Mat α) :=
  vols.map fun v => ⟨v.n0, v.n1, fun i j => v.data i j zz⟩

/-- `vols[0].shape[2]`: the number of per-slice tasks submitted to the pool. -/
def head_n2 {α : Type} : List (Vol α) → ℕ
  | [] => 0
  | v :: _ => v.n2

/-- The worker-pool results in completion order `order` (an arbitrary
permutation of the slice indices); each result is tagged with the slice index
of the task that produced it. -/
def worker_results {α β : Type} (f : List (Mat α) → Mat β) (vols : List (Vol α))
    (order : List ℕ) : List (ℕ × Mat β) :=
  order.map fun zz => (zz, f (slice_tuple vols zz))

/-- `starmap_async(...).get()`: the results are returned in input-task order,
i.e. the result for slice `zz` is placed at position `zz`, regardless of the
order in which the workers completed. -/
def collect_results {β : Type} [Inhabited β] (n2 : ℕ) (completed : List (ℕ × Mat β)) :
    List (Mat β) :=
  (List.range n2).map fun zz =>
    ((completed.find? fun p => p.1 == zz).map Prod.snd).getD junkMat

/-- `np.stack(sub_arrays, axis=2)`: recombine the per-slice outputs into a
3-D volume along axis 2. -/
def stack_axis2 {β : Type} [Inhabited β] (subs : List (Mat β)) : Vol β :=
  ⟨(subs.headD junkMat).m0, (subs.headD junkMat).m1, subs.length,
    fun i j k => (subs.getD k junkMat).data i j⟩

/-- `EstimateRespiration._process_slices_parallel`: fan a per-slice function out
over axis 2 of the input volumes, collect the tagged results in completion
order `order`, reassemble them in input order and stack them along axis 2. -/
def process_slices_parallel {α β : Type} [Inhabited β] (f : List (Mat α) → Mat β)
    (vols : List (Vol α)) (order : List ℕ) : Vol β :=
  stack_axis2 (collect_results (head_n2 vols) (worker_results f vols order))

/-- `_process_slices_parallel` with a fallible per-slice function: a task that
raises is modelled as returning `none`; `starmap_async(...).get()` re-raises,
so the whole call produces no volume unless every task succeeded. -/
def process_slices_parallel_exc {α β : Type} [Inhabited β]
    (f : List (Mat α) → Option (Mat β)) (vols : List (Vol α)) (order : List ℕ) :
    Option (Vol β) :=
  let results := order.map fun zz => (zz, f (slice_tuple vols zz))
  if results.all fun p => p.2.isSome then
    some (stack_axis2 (collect_results (head_n2 vols)
      (results.map fun p => (p.1, p.2.getD junkMat))))
  else
    none

/-- A numpy array that is either 0-d (a scalar, as produced by `np.squeeze` on
a length-1 vector) or 1-D. -/
inductive NDSig where
  | scalar (x : ℚ)
  | vec (l : List ℚ)
deriving DecidableEq

/-- External library numerics used by `EstimateRespiration`. These are
scipy / numpy / skimage / sklearn routines, not code of this repository; each
field is an unknown function, and the theorems below hold for every choice of
them. -/
structure Numerics where
  /-- The magnitude spectrum `abs(np.fft.fft(row))` of one sample row;
  arguments: the row, the row length, the bin index. -/
  magfft : (ℕ → ℚ) → ℕ → ℕ → ℚ
  /-- `scipy.ndimage.gaussian_filter(mat, sigma)`. -/
  gfilter : ℚ → (ℕ → ℕ → ℚ) → ℕ → ℕ → ℚ
  /-- `scipy.signal.medfilt2d(slice, [5, 5])` as called by `_filter_median`. -/
  medfilt : Mat ℚ → Mat ℚ
  /-- `np.std` (its value involves a square root, hence is kept abstract). -/
  npstd : List ℚ → ℚ
  /-- `skimage.restoration.denoise_tv_bregman(slice, weight=0.003)` as called
  by `_filter_denoise`. -/
  denoise_tv : Mat ℚ → Mat ℚ
  /-- `skimage.segmentation.inverse_gaussian_gradient(slice, alpha=10,
  sigma=1.5)` as called by `_filter_inv_gauss`. -/
  inv_gauss : Mat ℚ → Mat ℚ
  /-- `skimage.segmentation.morphological_geodesic_active_contour(img, 20,
  init_level_set, smoothing=2, balloon=1.2)` as called by `_segment_gac`. -/
  gac : Mat ℚ → Mat ℚ → Mat ℚ
  /-- The sklearn Gaussian-process posterior mean `gp.predict(X)[i]` after
  fitting on `(np.arange(len(raw)).reshape(-1, 1), raw)`. -/
  gpr_mean : List ℚ → ℕ → ℚ

/-- `np.min` of a vector (0 on the empty vector, which numpy rejects). -/
def listMin : List ℚ → ℚ
  | [] => 0
  | x :: xs => xs.foldl min x

/-- `np.max` of a vector (0 on the empty vector, which numpy rejects). -/
def listMax : List ℚ → ℚ
  | [] => 0
  | x :: xs => xs.foldl max x

/-- Scan the remaining entries keeping the first index of the running maximum
(`np.argmax` keeps the first occurrence). -/
def argmaxAux : List ℚ → ℕ → ℕ → ℚ → ℕ
  | [], _, best, _ => best
  | x :: xs, i, best, bv =>
    if bv < x then argmaxAux xs (i + 1) i x else argmaxAux xs (i + 1) best bv

/-- `np.argmax`: index of the first occurrence of the maximum. -/
def npArgmax : List ℚ → ℕ
  | [] => 0
  | x :: xs => argmaxAux xs 1 0 x

/-- `np.fft.fftshift` index map: `fftshift(x)[i] = x[shift_idx n i]`. -/
def shift_idx (n i : ℕ) : ℕ := (i + n - n / 2) % n

/-- `np.fft.fftfreq(n, d)[j]`. -/
def fftfreq_val (n : ℕ) (d : ℚ) (j : ℕ) : ℚ :=
  if j < (n + 1) / 2 then (j : ℚ) / (n * d) else ((j : ℚ) - n) / (n * d)

/-- `freqs = np.fft.fftshift(np.fft.fftfreq(sz[2], 1 / fs))`. -/
def freqs (fs : ℚ) (n2 k : ℕ) : ℚ := fftfreq_val n2 (1 / fs) (shift_idx n2 k)

/-- `respii = np.where((freqs > resp_min) & (freqs < resp_max))` with the
default band `(0.15, 0.4)`. -/
def respii (fs : ℚ) (n2 : ℕ) : List ℕ :=
  (List.range n2).filter fun k =>
    decide ((3 / 20 : ℚ) < freqs fs n2 k ∧ freqs fs n2 k < (2 / 5 : ℚ))

/-- Row `i` of `lineseries = self._image.img[:, ln, :]` (note: `ln` addresses
axis 1 while the caller's loop counter ranges over `sz[0]`). -/
def row_series (img : Vol ℚ) (ln i : ℕ) : ℕ → ℚ := fun k => img.data i ln k

/-- `freq_line = np.sum(abs(np.fft.fftshift(frq)), axis=0)` where
`frq = np.fft.fft(lineseries, axis=1)`; `fftshift` permutes both axes (the
axis-0 shift is written out even though the sum absorbs it). -/
def freq_line_raw (E : Numerics) (img : Vol ℚ) (ln k : ℕ) : ℚ :=
  ((List.range img.n0).map fun i =>
    E.magfft (row_series img ln (shift_idx img.n0 i)) img.n2
      (shift_idx img.n2 k)).sum

/-- The entries of one unnormalized `freq_line`. -/
def line_vals (E : Numerics) (img : Vol ℚ) (ln : ℕ) : List ℚ :=
  (List.range img.n2).map (freq_line_raw E img ln)

/-- The min–max normalization denominator
`max((np.max(freq_line) - np.min(freq_line)), 1)`. -/
def norm_denom (E : Numerics) (img : Vol ℚ) (ln : ℕ) : ℚ :=
  max (listMax (line_vals E img ln) - listMin (line_vals E img ln)) 1

/-- One row of `freqmat` before blurring:
`(freq_line - np.min(freq_line)) / max(np.max(freq_line) - np.min(freq_line), 1)`. -/
def freqmat_raw (E : Numerics) (img : Vol ℚ) : ℕ → ℕ → ℚ := fun ln k =>
  (freq_line_raw E img ln k - listMin (line_vals E img ln)) / norm_denom E img ln

/-- `freqmat = gaussian_filter(freqmat, sigma=1.2)`. -/
def freqmat_s (E : Numerics) (img : Vol ℚ) : ℕ → ℕ → ℚ :=
  E.gfilter (6 / 5) (freqmat_raw E img)

/-- `respspectrum = np.sum(freqmat[:, respii[0]], axis=1)`. -/
def respspectrum (E : Numerics) (fs : ℚ) (img : Vol ℚ) (ln : ℕ) : ℚ :=
  ((respii fs img.n2).map fun k => freqmat_s E img ln k).sum

/-- `int(sz[0] * (crop_fraction * 1.2))` with `crop_fraction = 0.4`: the
`np.ones` window width of the localizing convolution. -/
def conv_window (n0 : ℕ) : ℕ := 48 * n0 / 100

/-- `np.convolve(resp, np.ones(w), mode='same')` at position `j`: the central
`n0` entries of the full convolution with a width-`w` box window. -/
def conv_same (resp : ℕ → ℚ) (n0 w j : ℕ) : ℚ :=
  ((List.range n0).map fun a =>
    if a ≤ j + (w - 1) / 2 ∧ j + (w - 1) / 2 < a + w then resp a else 0).sum

/-- `respspectrum_c = np.convolve(respspectrum, np.ones(int(sz[0] * (crop_fraction * 1.2))), mode='same')`. -/
def respspectrum_c (E : Numerics) (fs : ℚ) (img : Vol ℚ) (j : ℕ) : ℚ :=
  conv_same (respspectrum E fs img) img.n0 (conv_window img.n0) j

/-- `centerline = np.argmax(respspectrum_c)`. -/
def centerline (E : Numerics) (fs : ℚ) (img : Vol ℚ) : ℕ :=
  npArgmax ((List.range img.n0).map (respspectrum_c E fs img))

/-- `width = int(sz[0] * crop_fraction * 0.5)` with `crop_fraction = 0.4`. -/
def crop_width (n0 : ℕ) : ℕ := 2 * n0 / 10

/-- A crop rectangle `np.array([[a, b], [c, d]], dtype=int)`: corners
`(line_min, slice_min)`–`(line_max, slice_max)` in the spec's data model. -/
structure Rect where
  line_min : ℤ
  slice_min : ℤ
  line_max : ℤ
  slice_max : ℤ

/-- `rect = np.array([[centerline - width, 0], [centerline + width, sz[0]]], dtype=int)`. -/
def auto_crop_rect (E : Numerics) (fs : ℚ) (img : Vol ℚ) : Rect :=
  ⟨(centerline E fs img : ℤ) - crop_width img.n0, 0,
    (centerline E fs img : ℤ) + crop_width img.n0, (img.n0 : ℤ)⟩

/-- One loop iteration's plane access `self._image.img[:, ln, :]`: in bounds
only when `ln < sz[1]`, although the loop counter ranges over `sz[0]`. -/
def get_plane (img : Vol ℚ) (ln : ℕ) : Option (ℕ → ℕ → ℚ) :=
  if ln < img.n1 then some fun i k => img.data i ln k else none

/-- The plane accesses of the `for ln in range(0, sz[0])` loop of `_auto_crop`,
stopping at the first out-of-bounds access (an `IndexError`). -/
def collect_planes (img : Vol ℚ) : List ℕ → Option (List (ℕ → ℕ → ℚ))
  | [] => some []
  | ln :: rest =>
    match get_plane img ln with
    | none => none
    | some p =>
      match collect_planes img rest with
      | none => none
      | some ps => some (p :: ps)

/-- All plane accesses made by the frequency-matrix loop of `_auto_crop`. -/
def auto_crop_planes (img : Vol ℚ) : Option (List (ℕ → ℕ → ℚ)) :=
  collect_planes img (List.range img.n0)

/-- Modelled from the spec: `ImageData.square_crop` belongs to this repository
but is not under `src/`. Per the spec's Volume interface (`crop(rect) -> void`,
in place) and its `CropRectangle` data model (corners
`(line_min, slice_min)`–`(line_max, slice_max)` define a sub-volume, with
invariant `0 ≤ line_min < line_max ≤ line_count`), the crop retains the
half-open line range `[line_min, line_max)` and the half-open range
`[slice_min, slice_max)` on the other in-plane axis. Consistently with both
call sites (`_refine_boundaries` bounds the first coordinate by `shape[1]` and
passes `shape[0]` as the second upper corner, and `_auto_crop` derives the
first coordinate from planes indexed along axis 1), the line coordinate
addresses axis 1 and the second coordinate addresses axis 0. -/
def square_crop (r : Rect) (v : Vol ℚ) : Vol ℚ :=
  let i0 := r.slice_min.toNat
  let i1 := min r.slice_max.toNat v.n0
  let j0 := r.line_min.toNat
  let j1 := min r.line_max.toNat v.n1
  ⟨i1 - i0, j1 - j0, v.n2, fun i j k => v.data (i + i0) (j + j0) k⟩

/-- The mutable state of an `EstimateRespiration` object: the three image
copies made in `__init__`, the sampling frequency they share (`get_fs`), and
the three signal fields. File output (`write_nii`) is an external side effect
and is not modelled. -/
structure PipelineState where
  image : Vol ℚ
  image_initialised : Vol ℚ
  image_refined : Vol ℚ
  fs : ℚ
  resp_raw : Option NDSig
  resp_trend : Option (List ℚ)
  resp_trace : Option (List ℚ)

/-- `_auto_crop`, with the raising behaviour of the numpy calls made explicit
in program order: iteration `ln = 0` raises `IndexError` when axis 1 is empty,
`np.fft.fft` raises on a zero-length sample axis, a later iteration raises
`IndexError` when `sz[1] < sz[0]`, and `np.convolve` raises on an empty
window. On success the rectangle is applied to all three image copies. -/
def auto_crop (E : Numerics) (s : PipelineState) : Except String PipelineState :=
  let img := s.image
  if 0 < img.n0 ∧ img.n1 = 0 then .error "IndexError"
  else if 0 < img.n0 ∧ img.n2 = 0 then .error "ValueError: Invalid number of FFT data points"
  else if img.n1 < img.n0 then .error "IndexError"
  else if conv_window img.n0 = 0 then .error "ValueError: v cannot be empty"
  else
    let r := auto_crop_rect E s.fs img
    .ok { s with
      image := square_crop r s.image
      image_initialised := square_crop r s.image_initialised
      image_refined := square_crop r s.image_refined }

/-- All in-range samples of a volume, flattened. -/
def vol_vals (v : Vol ℚ) : List ℚ :=
  (List.range v.n0).flatMap fun i =>
    (List.range v.n1).flatMap fun j =>
      (List.range v.n2).map fun k => v.data i j k

/-- The volume has non-zero dynamic range: two in-range samples differ
(equivalently, its minimum and maximum are distinct). -/
def nonzero_dynamic_range (v : Vol ℚ) : Prop :=
  ∃ i j k i2 j2 k2 : ℕ, i < v.n0 ∧ j < v.n1 ∧ k < v.n2 ∧
    i2 < v.n0 ∧ j2 < v.n1 ∧ k2 < v.n2 ∧
    v.data i j k ≠ v.data i2 j2 k2

/-- The median-filtered volume
`self._process_slices_parallel(self._filter_median, self._image.img, ...)`,
evaluated at the canonical completion order (by the order-preservation law
every completion order yields the same volume). -/
def filtered_init (E : Numerics) (img : Vol ℚ) : Vol ℚ :=
  process_slices_parallel (fun ms => E.medfilt (ms.headD junkMat)) [img]
    (List.range img.n2)

/-- The flattened samples of
`filtered_image[[0, filtered_image.shape[0] - 1], :, :]` (numpy fancy
indexing: row 0 and row `shape[0] - 1`, duplicated when they coincide). -/
def extreme_rows_vals (v : Vol ℚ) : List ℚ :=
  ([0, v.n0 - 1] : List ℕ).flatMap fun s =>
    (List.range v.n1).flatMap fun j =>
      (List.range v.n2).map fun k => v.data s j k

/-- `np.mean`. -/
def np_mean (l : List ℚ) : ℚ := l.sum / l.length

/-- `thresh = np.mean(...) + (0.5 * np.std(...))` over the two extreme rows. -/
def thresh_of (E : Numerics) (v : Vol ℚ) : ℚ :=
  np_mean (extreme_rows_vals v) + (1 / 2) * E.npstd (extreme_rows_vals v)

/-- The seed volume: `img_thresh = filtered_image <= thresh` followed by
`img_thresh[[0, filtered_image.shape[0] - 1], :, :] = 1`; the two statements
collapse to a single pointwise definition. -/
def img_thresh (E : Numerics) (img : Vol ℚ) : Vol Bool :=
  let fv := filtered_init E img
  ⟨fv.n0, fv.n1, fv.n2, fun i j k =>
    if i = 0 ∨ i = fv.n0 - 1 then true
    else decide (fv.data i j k ≤ thresh_of E fv)⟩

/-- A voxel coordinate. -/
abbrev Vox := ℕ × ℕ × ℕ

/-- The face neighbours (6-connectivity in 3-D, `connectivity=1`) of a voxel. -/
def face_neighbors (v : Vox) : List Vox :=
  [(v.1 + 1, v.2.1, v.2.2), (v.1, v.2.1 + 1, v.2.2), (v.1, v.2.1, v.2.2 + 1)]
    ++ (if 0 < v.1 then [(v.1 - 1, v.2.1, v.2.2)] else [])
    ++ (if 0 < v.2.1 then [(v.1, v.2.1 - 1, v.2.2)] else [])
    ++ (if 0 < v.2.2 then [(v.1, v.2.1, v.2.2 - 1)] else [])

/-- Foreground membership: in bounds and `true` in the thresholded volume. -/
def fg (t : Vol Bool) (v : Vox) : Bool :=
  decide (v.1 < t.n0) && decide (v.2.1 < t.n1) && decide (v.2.2 < t.n2)
    && t.data v.1 v.2.1 v.2.2

/-- One step of region growing: add every foreground face-neighbour not yet
visited. -/
def grow (F : Vox → Bool) (visited : List Vox) : List Vox :=
  visited ++ (visited.flatMap face_neighbors).filter fun w =>
    F w && !(decide (w ∈ visited))

/-- Iterated region growing from a start voxel. -/
def reach_n (F : Vox → Bool) : ℕ → Vox → List Vox
  | 0, s => [s]
  | n + 1, s => grow F (reach_n F n s)

/-- Modelled from the library's documented semantics:
`labels = measure.label(img_thresh, background=0, connectivity=1)` assigns two
foreground voxels the same label exactly when they are face-connected through
foreground, and assigns every background voxel the label 0; `same_label t a b`
decides `labels[a] == labels[b]`. A volume of `n0 * n1 * n2` voxels is
exhausted after that many growth steps. -/
def same_label (t : Vol Bool) (a b : Vox) : Bool :=
  if fg t a && fg t b then decide (b ∈ reach_n (fg t) (t.n0 * t.n1 * t.n2) a)
  else !fg t a && !fg t b

/-- `ac_mask`: 1 exactly where `labels` matches `labels[0, 0, 0]` or
`labels[filtered_image.shape[0] - 1, 0, 0]`, 0 elsewhere. -/
def ac_mask (E : Numerics) (img : Vol ℚ) : Vol ℚ :=
  let t := img_thresh E img
  ⟨t.n0, t.n1, t.n2, fun i j k =>
    if same_label t (0, 0, 0) (i, j, k) || same_label t (t.n0 - 1, 0, 0) (i, j, k)
    then 1 else 0⟩

/-- `_initialise_boundaries`: write the selected-component mask into the
initialised image copy (`set_data`; `write_nii` is external output). -/
def initialise_boundaries (E : Numerics) (s : PipelineState) : PipelineState :=
  { s with image_initialised := ac_mask E s.image }

/-- The denoised edge-map volume of `_refine_boundaries`: TV denoising then the
inverse-Gaussian edge indicator, each fanned out per slice. -/
def filtered_refine (E : Numerics) (s : PipelineState) : Vol ℚ :=
  let f1 := process_slices_parallel (fun ms => E.denoise_tv (ms.headD junkMat))
    [s.image] (List.range s.image.n2)
  process_slices_parallel (fun ms => E.inv_gauss (ms.headD junkMat))
    [f1] (List.range f1.n2)

/-- `refined_contours = self._process_slices_parallel(self._segment_gac,
filtered_image, self._image_initialised.img, ...)`. -/
def refined_contours (E : Numerics) (s : PipelineState) : Vol ℚ :=
  let fv := filtered_refine E s
  process_slices_parallel (fun ms => E.gac (ms.headD junkMat) (ms.getD 1 junkMat))
    [fv, s.image_initialised] (List.range fv.n2)

/-- The mask inversion `refined_contours = (refined_contours == 0) * 1`. -/
def inverted_contours (E : Numerics) (s : PipelineState) : Vol ℚ :=
  let rc := refined_contours E s
  ⟨rc.n0, rc.n1, rc.n2, fun i j k => if rc.data i j k = 0 then 1 else 0⟩

/-- `cropval = int(self._crop_fraction * refined_contours.shape[1])` with the
`__init__` default `self._crop_fraction = 0.12`. -/
def crop_val (L : ℕ) : ℕ := 12 * L / 100

/-- `_refine_boundaries`: denoise, edge map, active contour, inversion, then
`square_crop` with `rect = np.array([[0 + cropval, 0],
[refined_contours.shape[1] - 1 - cropval, refined_contours.shape[0]]])`. -/
def refine_boundaries (E : Numerics) (s : PipelineState) : PipelineState :=
  let inv := inverted_contours E s
  let c := crop_val inv.n1
  let r : Rect := ⟨(c : ℤ), 0, (inv.n1 : ℤ) - 1 - (c : ℤ), (inv.n0 : ℤ)⟩
  { s with image_refined := square_crop r inv }

/-- The per-slice mask sum, slice `k` of
`np.sum(self._image_refined.img, axis=(0, 1))`. -/
def slice_sum (v : Vol ℚ) (k : ℕ) : ℚ :=
  ((List.range v.n0).map fun i =>
    ((List.range v.n1).map fun j => v.data i j k).sum).sum

/-- The 1-D array `np.sum(self._image_refined.img, axis=(0, 1))`. -/
def slice_sums (v : Vol ℚ) : List ℚ := (List.range v.n2).map (slice_sum v)

/-- `np.squeeze` on a 1-D array: a length-1 vector collapses to a 0-d scalar;
any other length is left unchanged. -/
def np_squeeze (l : List ℚ) : NDSig :=
  if l.length = 1 then NDSig.scalar (l.headD 0) else NDSig.vec l

/-- `_sum_mask_data`: `self.resp_raw = np.squeeze(np.sum(self._image_refined.img, axis=(0, 1)))`. -/
def sum_mask_data (v : Vol ℚ) : NDSig := np_squeeze (slice_sums v)

/-- `self.resp_trend = gp.predict(X)`: the fitted posterior mean at every
training index `X = np.arange(self.resp_raw.shape[0])`. -/
def gpr_trend (E : Numerics) (l : List ℚ) : List ℚ :=
  (List.range l.length).map (E.gpr_mean l)

/-- `self.resp_trace = self.resp_raw - self.resp_trend` (elementwise). -/
def gpr_trace (E : Numerics) (l : List ℚ) : List ℚ :=
  List.zipWith (fun a b => a - b) l (gpr_trend E l)

/-- `_gpr_filter`: `self.resp_raw.shape[0]` raises on a 0-d `resp_raw` (its
`shape` is the empty tuple); otherwise fit, predict and subtract. -/
def gpr_filter (E : Numerics) (raw : NDSig) : Except String (List ℚ × List ℚ) :=
  match raw with
  | NDSig.scalar _ => .error "IndexError: tuple index out of range"
  | NDSig.vec l => .ok (gpr_trend E l, gpr_trace E l)

/-- `_method_body_area`: crop (unless disabled), initialise, refine, then
extract and filter the respiration signal. -/
def method_body_area (E : Numerics) (disable_crop_data : Bool)
    (s : PipelineState) : Except String PipelineState := do
  let s1 ← if disable_crop_data then Except.ok s else auto_crop E s
  let s2 := initialise_boundaries E s1
  let s3 := refine_boundaries E s2
  let raw := sum_mask_data s3.image_refined
  let s4 := { s3 with resp_raw := some raw }
  let (trend, trace) ← gpr_filter E raw
  Except.ok { s4 with resp_trend := some trend, resp_trace := some trace }

/-- `EstimateRespiration.run`: dispatch on the configured estimation method;
any value but `'body_area'` raises
`Exception('\nInvalid respiration estimate method\n')`. -/
def run (E : Numerics) (method : String) (disable_crop_data : Bool)
    (s : PipelineState) : Except String PipelineState :=
  if method = "body_area" then method_body_area E disable_crop_data s
  else .error "\nInvalid respiration estimate method\n"

/-- Identity / zero instantiation of the external numerics, used only to
evaluate the model at concrete inputs. -/
def numId : Numerics :=
  { magfft := fun _ _ _ => 0
    gfilter := fun _ m => m
    medfilt := fun m => m
    npstd := fun _ => 0
    denoise_tv := fun m => m
    inv_gauss := fun m => m
    gac := fun m _ => m
    gpr_mean := fun _ _ => 0 }

/-- A 5 × 5 × 2 volume with one bright voxel (non-zero dynamic range),
sampled at 1 Hz: its two frequency bins (−0.5 Hz and 0 Hz) both fall outside
the respiratory band `(0.15, 0.4)`, so `respii` is empty, `respspectrum` is
identically zero and `centerline = np.argmax` of an all-zero profile `= 0`. -/
def vFive : Vol ℚ := ⟨5, 5, 2, fun i j k => if i = 0 ∧ j = 0 ∧ k = 0 then 1 else 0⟩

/-- A 1 × 1 × 1 constant volume. -/
def vOne : Vol ℚ := ⟨1, 1, 1, fun _ _ _ => 1⟩

/-- A 3 × 2 × 1 volume: axis 0 longer than axis 1. -/
def vWide : Vol ℚ := ⟨3, 2, 1, fun _ _ _ => 0⟩

/-- A 2 × 3 × 1 volume: axis 0 not longer than axis 1. -/
def vTall : Vol ℚ := ⟨2, 3, 1, fun _ _ _ => 0⟩

/-- A 1 × 1 × 2 volume with distinct slice sums. -/
def vTwoSlices : Vol ℚ := ⟨1, 1, 2, fun _ _ k => if k = 0 then 3 else 7⟩

/-- A pipeline state over a 1 × 25 × 1 image (line-axis length 25). -/
def s25 : PipelineState :=
  { image := ⟨1, 25, 1, fun _ _ _ => 0⟩
    image_initialised := ⟨1, 25, 1, fun _ _ _ => 0⟩
    image_refined := ⟨1, 25, 1, fun _ _ _ => 0⟩
    fs := 1
    resp_raw := none
    resp_trend := none
    resp_trace := none }

/-- A minimal pipeline state. -/
def sOne : PipelineState :=
  { image := vOne
    image_initialised := vOne
    image_refined := vOne
    fs := 1
    resp_raw := none
    resp_trend := none
    resp_trace := none }

/-- Looking a tag up among tagged results finds that tag's own result. -/
theorem find_tagged {β : Type} (g : ℕ → β) :
    ∀ (l : List ℕ) (zz : ℕ), zz ∈ l →
      (l.map fun z => (z, g z)).find? (fun p => p.1 == zz) = some (zz, g zz) := by
  intro l
  induction l with
  | nil => intro zz h; cases h
  | cons a t ih =>
    intro zz h
    by_cases haz : a = zz
    · subst haz
      simp [List.find?]
    · have hbeq : (a == zz) = false := beq_false_of_ne haz
      have hmem : zz ∈ t := by
        rcases List.mem_cons.mp h with h1 | h2
        · exact absurd h1.symm haz
        · exact h2
      simpa [List.find?, hbeq] using ih zz hmem

/-- Indexing a map over `List.range`. -/
theorem range_map_getD {β : Type} (g : ℕ → β) (n k : ℕ) (hk : k < n) (d : β) :
    ((List.range n).map g).getD k d = g k := by
  have hlen : k < ((List.range n).map g).length := by
    simpa using hk
  rw [List.getD_eq_getElem _ _ hlen]
  simp

/-- The pool's tagged results contain, for each submitted slice index, that
slice's own output. -/
theorem worker_results_find {α β : Type} (f : List (Mat α) → Mat β)
    (vols : List (Vol α)) (order : List ℕ) (k : ℕ) (hmem : k ∈ order) :
    (worker_results f vols order).find? (fun p => p.1 == k) =
      some (k, f (slice_tuple vols k)) :=
  find_tagged (fun z => f (slice_tuple vols z)) order k hmem

/-- C1: for every per-slice function `f`, every tuple of volumes and every
completion order of the workers (any permutation of the slice indices), the
parallel slice processor returns a volume with the same slice count whose
slice at index `k` is `f` applied to the input slices at index `k`, for every
`k`. -/
theorem claim_C1 {α β : Type} [Inhabited β] (f : List (Mat α) → Mat β)
    (v0 : Vol α) (vs : List (Vol α)) (order : List ℕ)
    (hperm : order.Perm (List.range v0.n2)) :
    (process_slices_parallel f (v0 :: vs) order).n2 = v0.n2 ∧
    ∀ k, k < v0.n2 → ∀ i j,
      (process_slices_parallel f (v0 :: vs) order).data i j k =
        (f (slice_tuple (v0 :: vs) k)).data i j := by
  constructor
  · simp [process_slices_parallel, stack_axis2, collect_results, head_n2]
  · intro k hk i j
    have hmem : k ∈ order := hperm.mem_iff.mpr (List.mem_range.mpr hk)
    simp only [process_slices_parallel, stack_axis2, collect_results, head_n2]
    rw [range_map_getD _ _ k hk]
    rw [worker_results_find f (v0 :: vs) order k hmem]
    rfl

/-- Witness for C1 at a concrete input. -/
theorem claim_C1_witness :
    ([0] : List ℕ).Perm (List.range vOne.n2) ∧
    ((process_slices_parallel (fun ms : List (Mat ℚ) => ms.headD junkMat) [vOne] [0]).n2 = vOne.n2 ∧
      ∀ k, k < vOne.n2 → ∀ i j,
        (process_slices_parallel (fun ms : List (Mat ℚ) => ms.headD junkMat) [vOne] [0]).data i j k =
          ((fun ms : List (Mat ℚ) => ms.headD junkMat) (slice_tuple [vOne] k)).data i j) :=
  ⟨by decide, claim_C1 (fun ms : List (Mat ℚ) => ms.headD junkMat) vOne [] [0] (by decide)⟩

/-- C5: if the per-slice function fails on any slice index, the whole parallel
slice-processing call fails and returns no volume (no partial result), for
every completion order of the workers. -/
theorem claim_C5 {α β : Type} [Inhabited β] (f : List (Mat α) → Option (Mat β))
    (v0 : Vol α) (vs : List (Vol α)) (order : List ℕ)
    (hperm : order.Perm (List.range v0.n2)) (zz : ℕ) (hzz : zz < v0.n2)
    (hfail : f (slice_tuple (v0 :: vs) zz) = none) :
    process_slices_parallel_exc f (v0 :: vs) order = none := by
  have hmem : zz ∈ order := hperm.mem_iff.mpr (List.mem_range.mpr hzz)
  have hfalse : ¬ ((order.map fun z => (z, f (slice_tuple (v0 :: vs) z))).all
      fun p => p.2.isSome) = true := by
    intro hall
    have hin : (zz, f (slice_tuple (v0 :: vs) zz)) ∈
        order.map fun z => (z, f (slice_tuple (v0 :: vs) z)) :=
      List.mem_map_of_mem _ hmem
    have hsome := List.all_eq_true.mp hall _ hin
    rw [hfail] at hsome
    simp at hsome
  simp only [process_slices_parallel_exc]
  rw [if_neg hfalse]

/-- Witness for C5 at a concrete input. -/
theorem claim_C5_witness :
    process_slices_parallel_exc (fun _ => (none : Option (Mat ℚ))) [vOne] [0] = none :=
  claim_C5 (fun _ => none) vOne [] [0] (by decide) 0 (by decide) rfl

/-- A loop containing an out-of-bounds plane access fails. -/
theorem collect_planes_none (img : Vol ℚ) :
    ∀ (l : List ℕ) (ln : ℕ), ln ∈ l → get_plane img ln = none →
      collect_planes img l = none := by
  intro l
  induction l with
  | nil => intro ln h; cases h
  | cons a t ih =>
    intro ln h hnone
    rcases List.mem_cons.mp h with h1 | h2
    · subst h1
      simp [collect_planes, hnone]
    · simp only [collect_planes]
      rw [ih ln h2 hnone]
      cases hga : get_plane img a <;> rfl

/-- A loop whose plane accesses are all in bounds succeeds. -/
theorem collect_planes_isSome (img : Vol ℚ) :
    ∀ l : List ℕ, (∀ ln ∈ l, ln < img.n1) → (collect_planes img l).isSome := by
  intro l
  induction l with
  | nil => intro _; simp [collect_planes]
  | cons a t ih =>
    intro h
    have ha : a < img.n1 := h a (List.mem_cons_self a t)
    have hrest := ih fun ln hln => h ln (List.mem_cons_of_mem a hln)
    obtain ⟨ps, hps⟩ := Option.isSome_iff_exists.mp hrest
    simp [collect_planes, get_plane, ha, hps]

/-- C9: the frequency-matrix loop of `_auto_crop` iterates line indices over
`sz[0]` while extracting planes by indexing axis 1, so whenever
`sz[1] < sz[0]` some plane access is out of bounds and the loop raises; and
whenever `sz[0] ≤ sz[1]` every plane access is in bounds. -/
theorem claim_C9 (img : Vol ℚ) :
    (img.n1 < img.n0 → auto_crop_planes img = none) ∧
    (img.n0 ≤ img.n1 → (auto_crop_planes img).isSome) := by
  constructor
  · intro h
    apply collect_planes_none img (List.range img.n0) img.n1 (List.mem_range.mpr h)
    simp [get_plane]
  · intro h
    apply collect_planes_isSome
    intro ln hln
    exact lt_of_lt_of_le (List.mem_range.mp hln) h

/-- Witness for C9: a volume with axis 0 longer than axis 1 fails; one with
axis 0 not longer succeeds. -/
theorem claim_C9_witness :
    auto_crop_planes vWide = none ∧ (auto_crop_planes vTall).isSome :=
  ⟨(claim_C9 vWide).1 (by decide), (claim_C9 vTall).2 (by decide)⟩

/-- The scan of `npArgmax` stays below the end of the scanned range. -/
theorem argmaxAux_lt : ∀ (xs : List ℚ) (i best : ℕ) (bv : ℚ), best < i →
    argmaxAux xs i best bv < i + xs.length := by
  intro xs
  induction xs with
  | nil =>
    intro i best bv h
    simpa [argmaxAux] using h
  | cons x t ih =>
    intro i best bv h
    simp only [argmaxAux, List.length_cons]
    by_cases hc : bv < x
    · rw [if_pos hc]
      have hh := ih (i + 1) i x (Nat.lt_succ_self i)
      omega
    · rw [if_neg hc]
      have hh := ih (i + 1) best bv (Nat.lt_succ_of_lt h)
      omega

/-- `np.argmax` of a non-empty vector is a valid index. -/
theorem npArgmax_lt (l : List ℚ) (h : l ≠ []) : npArgmax l < l.length := by
  cases l with
  | nil => exact absurd rfl h
  | cons x t =>
    simp only [npArgmax, List.length_cons]
    have := argmaxAux_lt t 1 0 x Nat.one_pos
    omega

/-- C2 counterexample: the claimed invariant `0 ≤ line_min` fails on an input
with non-zero dynamic range. For the 5 × 5 × 2 volume `vFive` sampled at
1 Hz, the two frequency bins (−0.5 Hz and 0 Hz) both lie outside the
respiratory band, so the band-energy profile is identically zero; `np.argmax`
of the all-zero convolved profile is 0, and the rectangle is
`[[0 - 1, 0], [0 + 1, 5]]` with `line_min = -1 < 0`. -/
theorem claim_C2_counterexample :
    ¬ (∀ (E : Numerics) (fs : ℚ) (img : Vol ℚ), nonzero_dynamic_range img →
      0 ≤ (auto_crop_rect E fs img).line_min ∧
      (auto_crop_rect E fs img).line_min < (auto_crop_rect E fs img).line_max ∧
      (auto_crop_rect E fs img).line_max ≤ (img.n0 : ℤ) ∧
      0 ≤ (crop_width img.n0 : ℤ)) := by
  intro h
  have hdr : nonzero_dynamic_range vFive := by
    refine ⟨0, 0, 0, 0, 0, 1, by decide, by decide, by decide, by decide,
      by decide, by decide, ?_⟩
    norm_num [vFive]
  have h1 := (h numId 1 vFive hdr).1
  have hf0 : freqs 1 2 0 = -1 / 2 := by
    simp [freqs, fftfreq_val, shift_idx]
    norm_num
  have hf1 : freqs 1 2 1 = 0 := by
    simp [freqs, fftfreq_val, shift_idx]
  have hri : respii 1 2 = [] := by
    simp [respii, List.range_succ, hf0, hf1]
    norm_num
  have hresp : ∀ ln, respspectrum numId 1 vFive ln = 0 := by
    intro ln
    have hn2 : vFive.n2 = 2 := rfl
    simp [respspectrum, hn2, hri]
  have hconv : ∀ j, respspectrum_c numId 1 vFive j = 0 := by
    intro j
    simp [respspectrum_c, conv_same, hresp]
  have hcl : centerline numId 1 vFive = 0 := by
    have h5 : vFive.n0 = 5 := rfl
    have hmap : (List.range vFive.n0).map (respspectrum_c numId 1 vFive) =
        [0, 0, 0, 0, 0] := by
      rw [h5]
      simp [List.range_succ, hconv]
    rw [centerline, hmap]
    simp [npArgmax, argmaxAux]
  have hlm : (auto_crop_rect numId 1 vFive).line_min = -1 := by
    simp [auto_crop_rect, hcl]
    rfl
  rw [hlm] at h1
  exact absurd h1 (by norm_num)

/-- C2 amended: `half_width ≥ 0` always; on any volume with at least one line,
`centerline` is a valid line index and `line_max − line_min = 2 · half_width`,
so `line_min < line_max` as soon as `line_count ≥ 5` (then `half_width ≥ 1`);
and the min–max normalization denominator is floored at 1, so crop detection
divides by zero on no input, in particular not on a constant-intensity volume.
The bounds `0 ≤ line_min` and `line_max ≤ line_count` of the original claim do
not hold in general (see the counterexample). -/
theorem claim_C2_amended (E : Numerics) (fs : ℚ) (img : Vol ℚ)
    (h0 : 1 ≤ img.n0) :
    0 ≤ (crop_width img.n0 : ℤ) ∧
    centerline E fs img < img.n0 ∧
    (auto_crop_rect E fs img).line_max - (auto_crop_rect E fs img).line_min =
      2 * (crop_width img.n0 : ℤ) ∧
    (∀ ln, 1 ≤ norm_denom E img ln) ∧
    (5 ≤ img.n0 →
      (auto_crop_rect E fs img).line_min < (auto_crop_rect E fs img).line_max) := by
  refine ⟨by omega, ?_, ?_, ?_, ?_⟩
  · have hlen : ((List.range img.n0).map (respspectrum_c E fs img)).length = img.n0 := by
      simp
    have hne : (List.range img.n0).map (respspectrum_c E fs img) ≠ [] := by
      intro hnil
      rw [hnil] at hlen
      simp at hlen
      omega
    have hb := npArgmax_lt _ hne
    rw [hlen] at hb
    exact hb
  · simp only [auto_crop_rect]
    ring
  · intro ln
    exact le_max_right _ _
  · intro h5
    simp only [auto_crop_rect, crop_width]
    omega

/-- Witness for the amended C2 at a concrete input. -/
theorem claim_C2_amended_witness :
    1 ≤ vFive.n0 ∧
    (0 ≤ (crop_width vFive.n0 : ℤ) ∧
      centerline numId 1 vFive < vFive.n0 ∧
      (auto_crop_rect numId 1 vFive).line_max - (auto_crop_rect numId 1 vFive).line_min =
        2 * (crop_width vFive.n0 : ℤ) ∧
      (∀ ln, 1 ≤ norm_denom numId vFive ln) ∧
      (5 ≤ vFive.n0 →
        (auto_crop_rect numId 1 vFive).line_min <
          (auto_crop_rect numId 1 vFive).line_max)) :=
  ⟨by decide, claim_C2_amended numId 1 vFive (by decide)⟩

/-- C4: any estimation-method value other than `'body_area'` makes `run` fail
with the fatal configuration error; the error result carries no state, so no
volume processing is performed and no state is modified. -/
theorem claim_C4 (E : Numerics) (method : String) (dc : Bool)
    (s : PipelineState) (h : method ≠ "body_area") :
    run E method dc s = Except.error "\nInvalid respiration estimate method\n" := by
  simp [run, h]

/-- Witness for C4 at a concrete input. -/
theorem claim_C4_witness :
    run numId "chest_area" false sOne =
      Except.error "\nInvalid respiration estimate method\n" :=
  claim_C4 numId "chest_area" false sOne (by decide)

/-- C3 counterexample: the boundary refiner's crop is not a symmetric
"exactly 0.12 off each end". Over a 1 × 25 × 1 state (with identity
instantiations of the external per-slice routines) the active-contour output
has 25 line positions; cropping exactly 0.12 · 25 = 3 lines off each end would
retain 19, but `rect = [[0 + 3, 0], [25 - 1 - 3, 1]]` retains only 18 (3
cropped off the low end, 4 off the high end). -/
theorem claim_C3_counterexample :
    ¬ (∀ (E : Numerics) (s : PipelineState),
      1 ≤ (refined_contours E s).n1 →
      ((refine_boundaries E s).image_refined.n1 : ℚ) =
        ((refined_contours E s).n1 : ℚ) -
          2 * ((12 / 100) * ((refined_contours E s).n1 : ℚ))) := by
  intro h
  have h1 := h numId s25 (by decide)
  have h2 : (refine_boundaries numId s25).image_refined.n1 = 18 := by decide
  have h3 : (refined_contours numId s25).n1 = 25 := by decide
  rw [h2, h3] at h1
  norm_num at h1

/-- C3 amended: the boundary refiner inverts the active-contour output (the
result is 1 exactly where the evolved mask is 0) and then crops
`cropval = ⌊0.12 · L⌋` line positions off the low end of the line axis but
`cropval + 1` off the high end (`L` the line count of the active-contour
output): the retained half-open line range is `[cropval, L − 1 − cropval)`,
one line short of symmetric. -/
theorem claim_C3_amended (E : Numerics) (s : PipelineState)
    (hL : 1 ≤ (refined_contours E s).n1) :
    (refine_boundaries E s).image_refined.n1 =
      (refined_contours E s).n1 - 1 - 2 * crop_val (refined_contours E s).n1 ∧
    ∀ i j k, (refine_boundaries E s).image_refined.data i j k =
      if (refined_contours E s).data i (j + crop_val (refined_contours E s).n1) k = 0
      then 1 else 0 := by
  have hc : crop_val (refined_contours E s).n1 ≤ (refined_contours E s).n1 - 1 := by
    unfold crop_val
    omega
  constructor
  · simp only [refine_boundaries, square_crop, inverted_contours]
    omega
  · intro i j k
    simp only [refine_boundaries, square_crop, inverted_contours]
    norm_num

/-- Witness for the amended C3 at a concrete input. -/
theorem claim_C3_amended_witness :
    1 ≤ (refined_contours numId s25).n1 ∧
    ((refine_boundaries numId s25).image_refined.n1 =
        (refined_contours numId s25).n1 - 1 -
          2 * crop_val (refined_contours numId s25).n1 ∧
      ∀ i j k, (refine_boundaries numId s25).image_refined.data i j k =
        if (refined_contours numId s25).data
            i (j + crop_val (refined_contours numId s25).n1) k = 0
        then 1 else 0) :=
  ⟨by decide, claim_C3_amended numId s25 (by decide)⟩

/-- C6: the initialized-boundary mask is binary-valued everywhere, and the
thresholded seed volume is foreground on the first and the last line position
regardless of intensity, before connected-component selection. -/
theorem claim_C6 (E : Numerics) (img : Vol ℚ) :
    (∀ i j k, (ac_mask E img).data i j k = 0 ∨ (ac_mask E img).data i j k = 1) ∧
    (∀ j k, (img_thresh E img).data 0 j k = true ∧
      (img_thresh E img).data ((img_thresh E img).n0 - 1) j k = true) := by
  constructor
  · intro i j k
    simp only [ac_mask]
    split
    · exact Or.inr rfl
    · exact Or.inl rfl
  · intro j k
    constructor
    · simp [img_thresh]
    · simp [img_thresh]

/-- Elementwise access of a zipped subtraction. -/
theorem zipWith_sub_getD : ∀ (as bs : List ℚ) (i : ℕ), i < as.length → i < bs.length →
    (List.zipWith (fun a b => a - b) as bs).getD i 0 = as.getD i 0 - bs.getD i 0 := by
  intro as
  induction as with
  | nil =>
    intro bs i h _
    simp at h
  | cons a t ih =>
    intro bs i h1 h2
    cases bs with
    | nil => simp at h2
    | cons b u =>
      cases i with
      | zero => simp [List.getD]
      | succ n =>
        have h1n : n < t.length := by simpa using h1
        have h2n : n < u.length := by simpa using h2
        simpa [List.getD_cons_succ] using ih u n h1n h2n

/-- C7: on any raw signal the trend filter returns the fitted trend and the
residual with `trace[i] = raw[i] − trend[i]` exactly, for every index, and the
three sequences have identical length. -/
theorem claim_C7 (E : Numerics) (l : List ℚ) :
    gpr_filter E (NDSig.vec l) = Except.ok (gpr_trend E l, gpr_trace E l) ∧
    (gpr_trend E l).length = l.length ∧
    (gpr_trace E l).length = l.length ∧
    ∀ i, i < l.length →
      (gpr_trace E l).getD i 0 = l.getD i 0 - (gpr_trend E l).getD i 0 := by
  refine ⟨rfl, by simp [gpr_trend], by simp [gpr_trace, gpr_trend], ?_⟩
  intro i hi
  apply zipWith_sub_getD
  · exact hi
  · simpa [gpr_trend] using hi

/-- Witness for C7 at a concrete input. -/
theorem claim_C7_witness :
    (0 : ℕ) < ([3, 7] : List ℚ).length ∧
    (gpr_trace numId [3, 7]).getD 0 0 =
      ([3, 7] : List ℚ).getD 0 0 - (gpr_trend numId [3, 7]).getD 0 0 :=
  ⟨by decide, (claim_C7 numId [3, 7]).2.2.2 0 (by decide)⟩

/-- C8 counterexample: for a refined-mask volume with exactly one slice,
`np.squeeze` collapses the per-slice sums to a 0-d scalar, so `_sum_mask_data`
does not return the length-1 signal of per-slice sums. -/
theorem claim_C8_counterexample :
    sum_mask_data vOne ≠ NDSig.vec (slice_sums vOne) := by
  have h1 : vOne.n2 = 1 := rfl
  simp only [sum_mask_data, np_squeeze, slice_sums, h1]
  intro hcontra
  simp at hcontra

/-- C8 amended: whenever the refined-mask volume's slice count is not 1 (so
`np.squeeze` leaves the 1-D array unchanged), the extractor returns the
vector of per-slice sums: its length is the slice count and its element `k`
is the sum of all mask voxel values in slice `k`. For slice count 1 the
result degenerates to a 0-d scalar (see the counterexample). -/
theorem claim_C8_amended (v : Vol ℚ) (h : v.n2 ≠ 1) :
    sum_mask_data v = NDSig.vec (slice_sums v) ∧
    (slice_sums v).length = v.n2 ∧
    ∀ k, k < v.n2 → (slice_sums v).getD k 0 = slice_sum v k := by
  have hlen : (slice_sums v).length = v.n2 := by simp [slice_sums]
  refine ⟨?_, hlen, ?_⟩
  · unfold sum_mask_data np_squeeze
    rw [if_neg]
    rw [hlen]
    exact h
  · intro k hk
    unfold slice_sums
    exact range_map_getD _ _ k hk 0

/-- Witness for the amended C8 at a concrete input. -/
theorem claim_C8_amended_witness :
    vTwoSlices.n2 ≠ 1 ∧
    (sum_mask_data vTwoSlices = NDSig.vec (slice_sums vTwoSlices) ∧
      (slice_sums vTwoSlices).length = vTwoSlices.n2 ∧
      ∀ k, k < vTwoSlices.n2 →
        (slice_sums vTwoSlices).getD k 0 = slice_sum vTwoSlices k) :=
  ⟨by decide, claim_C8_amended vTwoSlices (by decide)⟩

/-- Growing a region keeps its members. -/
theorem grow_mem (F : Vox → Bool) (L : List Vox) {x : Vox} (hx : x ∈ L) :
    x ∈ grow F L :=
  List.mem_append_left _ hx

/-- Growing a region adds every foreground face-neighbour of a member. -/
theorem grow_step (F : Vox → Bool) (L : List Vox) {x y : Vox}
    (hx : x ∈ L) (hy : y ∈ face_neighbors x) (hFy : F y = true) :
    y ∈ grow F L := by
  by_cases hmem : y ∈ L
  · exact List.mem_append_left _ hmem
  · apply List.mem_append_right
    apply List.mem_filter.mpr
    refine ⟨List.mem_flatMap.mpr ⟨x, hx, hy⟩, ?_⟩
    simp [hFy, hmem]

/-- Region growing is monotone in the number of steps. -/
theorem reach_n_mono (F : Vox → Bool) (s : Vox) :
    ∀ {m n : ℕ}, m ≤ n → ∀ {x : Vox}, x ∈ reach_n F m s → x ∈ reach_n F n s := by
  intro m n h
  induction h with
  | refl => intro x hx; exact hx
  | step _ ih =>
    intro x hx
    exact grow_mem F _ (ih hx)

/-- A member of the grown region after `n` steps yields its foreground
neighbours after `n + 1` steps. -/
theorem reach_n_succ_step (F : Vox → Bool) (s : Vox) {n : ℕ} {x y : Vox}
    (hx : x ∈ reach_n F n s) (hy : y ∈ face_neighbors x) (hFy : F y = true) :
    y ∈ reach_n F (n + 1) s :=
  grow_step F _ hx hy hFy

/-- Walking along axis 1 of a foreground row reaches `(i0, j, 0)` from the
corner `(i0, 0, 0)` in `j` growth steps. -/
theorem reach_axis1 (F : Vox → Bool) (i0 : ℕ) :
    ∀ j : ℕ, (∀ j2, j2 ≤ j → F (i0, j2, 0) = true) →
      ((i0, j, 0) : Vox) ∈ reach_n F j (i0, 0, 0) := by
  intro j
  induction j with
  | zero =>
    intro _
    simp [reach_n]
  | succ m ih =>
    intro h
    have h1 := ih fun j2 hj2 => h j2 (Nat.le_succ_of_le hj2)
    have hnb : ((i0, m + 1, 0) : Vox) ∈ face_neighbors (i0, m, 0) := by
      simp [face_neighbors]
    exact reach_n_succ_step F _ h1 hnb (h (m + 1) le_rfl)

/-- Within a fixed plane `i0` whose voxels up to `(j, k)` are all foreground,
the voxel `(i0, j, k)` is reached from the plane's first corner `(i0, 0, 0)`
in `j + k` growth steps (walk along axis 1, then along axis 2). -/
theorem reach_row (F : Vox → Bool) (i0 j : ℕ) :
    ∀ k : ℕ, (∀ j2 k2, j2 ≤ j → k2 ≤ k → F (i0, j2, k2) = true) →
      ((i0, j, k) : Vox) ∈ reach_n F (j + k) (i0, 0, 0) := by
  intro k
  induction k with
  | zero =>
    intro h
    exact reach_axis1 F i0 j fun j2 hj2 => h j2 0 hj2 le_rfl
  | succ m ih =>
    intro h
    have h1 := ih fun j2 k2 hj2 hk2 => h j2 k2 hj2 (Nat.le_succ_of_le hk2)
    have hnb : ((i0, j, m + 1) : Vox) ∈ face_neighbors (i0, j, m) := by
      simp [face_neighbors]
    exact reach_n_succ_step F _ h1 hnb (h j (m + 1) le_rfl le_rfl)

/-- In a thresholded volume whose plane `i0` is entirely foreground, every
in-range voxel of that plane carries the same component label as the plane's
first corner voxel `(i0, 0, 0)`. -/
theorem mask_row_selected (t : Vol Bool) (i0 j k : ℕ)
    (hi0 : i0 < t.n0)
    (hdata : ∀ j2 k2, j2 < t.n1 → k2 < t.n2 → t.data i0 j2 k2 = true)
    (hj : j < t.n1) (hk : k < t.n2) :
    same_label t (i0, 0, 0) (i0, j, k) = true := by
  have hfg : ∀ j2 k2, j2 ≤ j → k2 ≤ k → fg t (i0, j2, k2) = true := by
    intro j2 k2 hj2 hk2
    have hj2n : j2 < t.n1 := lt_of_le_of_lt hj2 hj
    have hk2n : k2 < t.n2 := lt_of_le_of_lt hk2 hk
    simp [fg, hi0, hj2n, hk2n, hdata j2 k2 hj2n hk2n]
  have hmem0 : ((i0, j, k) : Vox) ∈ reach_n (fg t) (j + k) (i0, 0, 0) :=
    reach_row (fg t) i0 j k hfg
  have hmul : t.n1 + t.n2 - 1 ≤ t.n1 * t.n2 := by
    have h1 : 1 ≤ t.n1 := by omega
    have h2 : 1 ≤ t.n2 := by omega
    have e : t.n2 - 1 + 1 = t.n2 := Nat.succ_pred_eq_of_pos h2
    have hmm : t.n2 - 1 ≤ t.n1 * (t.n2 - 1) := Nat.le_mul_of_pos_left _ h1
    calc t.n1 + t.n2 - 1 = t.n1 + (t.n2 - 1) := by omega
      _ ≤ t.n1 + t.n1 * (t.n2 - 1) := Nat.add_le_add_left hmm _
      _ = t.n1 * (t.n2 - 1 + 1) := by ring
      _ = t.n1 * t.n2 := by rw [e]
  have hfuel : t.n1 * t.n2 ≤ t.n0 * t.n1 * t.n2 := by
    calc t.n1 * t.n2 = 1 * (t.n1 * t.n2) := (one_mul _).symm
      _ ≤ t.n0 * (t.n1 * t.n2) := Nat.mul_le_mul_right _ (by omega)
      _ = t.n0 * t.n1 * t.n2 := (mul_assoc _ _ _).symm
  have hle : j + k ≤ t.n0 * t.n1 * t.n2 := by omega
  have hmem : ((i0, j, k) : Vox) ∈ reach_n (fg t) (t.n0 * t.n1 * t.n2) (i0, 0, 0) :=
    reach_n_mono (fg t) _ hle hmem0
  have ha : fg t (i0, 0, 0) = true := hfg 0 0 (Nat.zero_le _) (Nat.zero_le _)
  have hb : fg t (i0, j, k) = true := hfg j k le_rfl le_rfl
  unfold same_label
  rw [ha, hb]
  simpa using hmem

/-- C10: the final initialized mask (after connected-component selection) is 1
at every in-range voxel of the first and of the last line position: each
forced extreme plane is face-connected foreground containing its first corner
voxel, so its label is among the two selected labels. -/
theorem claim_C10 (E : Numerics) (img : Vol ℚ)
    (h0 : 1 ≤ (img_thresh E img).n0) :
    ∀ j k, j < (img_thresh E img).n1 → k < (img_thresh E img).n2 →
      (ac_mask E img).data 0 j k = 1 ∧
      (ac_mask E img).data ((img_thresh E img).n0 - 1) j k = 1 := by
  intro j k hj hk
  have hrow0 : ∀ j2 k2, j2 < (img_thresh E img).n1 → k2 < (img_thresh E img).n2 →
      (img_thresh E img).data 0 j2 k2 = true := by
    intro j2 k2 _ _
    simp [img_thresh]
  have hrowN : ∀ j2 k2, j2 < (img_thresh E img).n1 → k2 < (img_thresh E img).n2 →
      (img_thresh E img).data ((img_thresh E img).n0 - 1) j2 k2 = true := by
    intro j2 k2 _ _
    simp [img_thresh]
  have hb0 : (0 : ℕ) < (img_thresh E img).n0 := by omega
  have hbN : (img_thresh E img).n0 - 1 < (img_thresh E img).n0 := by omega
  have m0 := mask_row_selected (img_thresh E img) 0 j k hb0 hrow0 hj hk
  have mN := mask_row_selected (img_thresh E img) ((img_thresh E img).n0 - 1)
    j k hbN hrowN hj hk
  constructor
  · simp only [ac_mask]
    rw [m0]
    simp
  · simp only [ac_mask]
    rw [mN]
    simp

/-- Witness for C10 at a concrete input. -/
theorem claim_C10_witness :
    1 ≤ (img_thresh numId vOne).n0 ∧ 0 < (img_thresh numId vOne).n1 ∧
    0 < (img_thresh numId vOne).n2 ∧
    ((ac_mask numId vOne).data 0 0 0 = 1 ∧
      (ac_mask numId vOne).data ((img_thresh numId vOne).n0 - 1) 0 0 = 1) :=
  ⟨by decide, by decide, by decide,
    claim_C10 numId vOne (by decide) 0 0 (by decide) (by decide)⟩

end SweepRecon
